import Mathlib

/-
Verification of the adaptive search and learning engine of the i3 keybinding
help tool.  The Python sources are shallowly embedded: strings are lists of
characters, floats (timestamps, confidence scores) are rationals, Python
dicts are association lists in insertion order, and each stateful method of
SearchLearningSystem (src/scripts/search_learning_system.py) becomes a pure
function from the relevant state to the new state.  Wall-clock time
(time.time()) is passed explicitly as a parameter called now.
-/

/-- Strings are modelled as lists of characters. -/
abbrev Str := List Char

/-- Whitespace recognized by Python str.strip and str.split with no
arguments: space, tab, newline, carriage return, vertical tab, form feed. -/
def isPyWs (c : Char) : Bool :=
  c == ' ' || c == '\t' || c == '\n' || c == '\r' || c == Char.ofNat 11 || c == Char.ofNat 12

/-- Python str.strip with no arguments: remove leading and trailing
whitespace. -/
def pyStrip (s : Str) : Str :=
  ((s.dropWhile isPyWs).reverse.dropWhile isPyWs).reverse

/-- ASCII lower-casing of one character, as Python str.lower acts on the
ASCII range (the dictionary and query text handled by the tool is ASCII). -/
def lowerChar (c : Char) : Char :=
  if 65 ≤ c.toNat ∧ c.toNat ≤ 90 then Char.ofNat (c.toNat + 32) else c

/-- Python str.lower, restricted to ASCII case mapping. -/
def lowerStr (s : Str) : Str := s.map lowerChar

/-- The normalization query.lower().strip() used throughout
search_learning_system.py. -/
def normQuery (q : Str) : Str := pyStrip (lowerStr q)

/-- Worker for splitWs; acc holds the current word reversed. -/
def splitWsGo : Str → Str → List Str
  | [], acc => if acc = [] then [] else [acc.reverse]
  | c :: rest, acc =>
    if isPyWs c then
      if acc = [] then splitWsGo rest [] else acc.reverse :: splitWsGo rest []
    else splitWsGo rest (c :: acc)

/-- Python str.split with no arguments: split on runs of whitespace,
discarding empty pieces. -/
def splitWs (s : Str) : List Str := splitWsGo s []

/-- Python slice l[-k:] for a natural k.  For k greater than zero this is the
suffix of the last k elements (or the whole list when it is shorter); for
k equal to zero Python reads the slice as l[0:], the whole list. -/
def pySliceLast (k : Nat) (l : List α) : List α :=
  if k = 0 then l else l.drop (l.length - k)

/-- Lookup in a Python dict modelled as an association list in insertion
order (keys are unique in any state produced by a Python dict). -/
def alookup (k : Str) : List (Str × β) → Option β
  | [] => none
  | (k', v) :: rest => if k' = k then some v else alookup k rest

/-- Python dict assignment d[k] = v: overwrite the value in place if the key
is present, otherwise append the new pair at the end. -/
def aset (k : Str) (v : β) : List (Str × β) → List (Str × β)
  | [] => [(k, v)]
  | (k', v') :: rest => if k' = k then (k, v) :: rest else (k', v') :: aset k v rest

/-- Insert x into a sorted list, before the first element y with le x y.
Processing original elements right to left with this insertion yields the
stable sort used below. -/
def insertS (le : α → α → Bool) (x : α) : List α → List α
  | [] => [x]
  | y :: ys => if le x y then x :: y :: ys else y :: insertS le x ys

/-- Stable sort by a total boolean preorder le.  Python list.sort and sorted
are stable, and a stable sort by a total preorder has a unique result, so
this insertion sort computes exactly the list Python produces. -/
def stableSort (le : α → α → Bool) : List α → List α
  | [] => []
  | x :: xs => insertS le x (stableSort le xs)

/-- FailedSearch record from search_learning_system.py. -/
structure FailedSearch where
  query : Str
  timestamp : ℚ
  resultCount : Int
  suggestedMatches : List Str
  userSelected : Option Str
  userFeedback : Option Str
  sessionId : Str
deriving DecidableEq, Repr

/-- LearningInsight record from search_learning_system.py. -/
structure LearningInsight where
  patternType : Str
  originalTerm : Str
  suggestedMapping : Str
  confidenceScore : ℚ
  evidenceCount : Nat
  firstSeen : ℚ
  lastSeen : ℚ
  userConfirmations : Nat
  userRejections : Nat
deriving DecidableEq, Repr

/-- LearningConfig from search_learning_system.py (fields used by the
operations under study). -/
structure LearningConfig where
  maxFailedSearches : Nat
  maxInsights : Nat
  minConfidenceThreshold : ℚ
  autoApplyThreshold : ℚ
  cleanupAgeDays : Nat
  minEvidenceCount : Nat
  maxSuggestionsPerQuery : Nat
  typoSimilarityThreshold : ℚ
  synonymSimilarityThreshold : ℚ
deriving DecidableEq, Repr

/-- Default LearningConfig values. -/
def defaultConfig : LearningConfig :=
  { maxFailedSearches := 1000
    maxInsights := 500
    minConfidenceThreshold := 3/10
    autoApplyThreshold := 8/10
    cleanupAgeDays := 30
    minEvidenceCount := 2
    maxSuggestionsPerQuery := 5
    typoSimilarityThreshold := 6/10
    synonymSimilarityThreshold := 4/10 }

/-- The three search dictionaries (synonyms, intents, typos), each a Python
dict kept in insertion order. -/
structure Dictionaries where
  synonyms : List (Str × List Str)
  intents : List (Str × List Str)
  typos : List (Str × Str)
deriving DecidableEq, Repr

/-- Dictionaries with no entries. -/
def emptyDicts : Dictionaries := ⟨[], [], []⟩

/-- Mutable state of a SearchLearningSystem instance: the failed-search
list, the insight list and the dictionaries. -/
structure LearnState where
  failedSearches : List FailedSearch
  insights : List LearningInsight
  dictionaries : Dictionaries
deriving DecidableEq, Repr

/-- Signature of the _analyze_recent_failure step (and of the
_analyze_user_selection step): it reads the configuration, the dictionaries
and the new record, and rewrites only the insight list; the call tree
(_check_for_typos, _analyze_potential_synonyms, _analyze_intent_patterns,
_suggest_synonym_mapping, all ending in _add_insight) never touches
failed_searches or the dictionaries.  Its output depends on difflib scores
and Python set iteration order, so it is kept as a parameter and every
theorem below holds for an arbitrary function of this signature. -/
abbrev AnalyzeFn :=
  LearningConfig → Dictionaries → List LearningInsight → FailedSearch → List LearningInsight

/-- Embedding of record_failed_search (search_learning_system.py lines
147-171).  The boolean result records whether save_learning_data was
reached, i.e. whether anything was persisted. -/
def recordFailedSearch (analyze : AnalyzeFn) (now : ℚ) (cfg : LearningConfig)
    (st : LearnState) (query : Str) (resultCount : Int)
    (suggestedMatches : List Str) (sessionId : Str) : LearnState × Bool :=
  if pyStrip query = [] then (st, false)
  else
    let fsRec : FailedSearch :=
      ⟨normQuery query, now, resultCount, suggestedMatches, none, none, sessionId⟩
    let fs1 := st.failedSearches ++ [fsRec]
    let fs2 := if fs1.length > cfg.maxFailedSearches
               then pySliceLast cfg.maxFailedSearches fs1 else fs1
    let ins2 := analyze cfg st.dictionaries st.insights fsRec
    (⟨fs2, ins2, st.dictionaries⟩, true)

/-- One input of a record_failed_search call: the wall-clock time of the call
and the four arguments. -/
structure RecordInput where
  now : ℚ
  query : Str
  resultCount : Int
  suggestedMatches : List Str
  sessionId : Str
deriving DecidableEq, Repr

/-- Run a sequence of record_failed_search calls. -/
def runRecordSeq (analyze : AnalyzeFn) (cfg : LearningConfig) (st : LearnState) :
    List RecordInput → LearnState
  | [] => st
  | inp :: rest =>
      runRecordSeq analyze cfg
        (recordFailedSearch analyze inp.now cfg st inp.query inp.resultCount
          inp.suggestedMatches inp.sessionId).1 rest

/-- The FailedSearch record that a (non-empty) input creates. -/
def toFailedRecord (inp : RecordInput) : FailedSearch :=
  ⟨normQuery inp.query, inp.now, inp.resultCount, inp.suggestedMatches, none, none, inp.sessionId⟩

/-- Matching condition of the list comprehension in record_user_selection
(lines 176-181): same stored query as the normalized input, user_selected
still unset, and recorded less than 300 seconds ago. -/
def fsSelMatch (now : ℚ) (qn : Str) (s : FailedSearch) : Bool :=
  decide (s.query = qn ∧ s.userSelected = none ∧ now - s.timestamp < 300)

/-- Apply f to the last element of the list satisfying p; return the new list
together with the updated element, or none when no element matches.  This is
the effect of the in-place mutation recent_searches[0].user_selected = ...,
where recent_searches traverses the window in reversed order. -/
def updateLastMatching (p : α → Bool) (f : α → α) : List α → Option (List α × α)
  | [] => none
  | x :: xs =>
    match updateLastMatching p f xs with
    | some (xs', a) => some (x :: xs', a)
    | none => if p x then some (f x :: xs, f x) else none

/-- Embedding of record_user_selection (search_learning_system.py lines
173-186).  Only the last 10 stored records are examined
(self.failed_searches[-10:]); among them the most recent match receives
user_selected.  The boolean records whether save_learning_data ran. -/
def recordUserSelection (analyzeSel : AnalyzeFn) (now : ℚ) (cfg : LearningConfig)
    (st : LearnState) (query selectedBinding : Str) : LearnState × Bool :=
  let qn := normQuery query
  let w := pySliceLast 10 st.failedSearches
  let pre := st.failedSearches.take (st.failedSearches.length - w.length)
  match updateLastMatching (fsSelMatch now qn)
      (fun s => { s with userSelected := some selectedBinding }) w with
  | none => (st, false)
  | some (w', r) =>
      (⟨pre ++ w', analyzeSel cfg st.dictionaries st.insights r, st.dictionaries⟩, true)

/-- First phase of _add_insight (lines 319-336): scan the insight list for
the first record with the same (pattern_type, original_term,
suggested_mapping); if found, increment its evidence count, refresh
last_seen and raise the confidence by 0.1 capped at 1.0. -/
def updateFirstInsight (now : ℚ) (pt ot sm : Str) :
    List LearningInsight → Option (List LearningInsight)
  | [] => none
  | i :: rest =>
    if i.patternType = pt ∧ i.originalTerm = ot ∧ i.suggestedMapping = sm then
      some ({ i with evidenceCount := i.evidenceCount + 1,
                     lastSeen := now,
                     confidenceScore := min 1 (i.confidenceScore + 1/10) } :: rest)
    else
      (updateFirstInsight now pt ot sm rest).map (i :: ·)

/-- Ascending comparison by the Python key (confidence_score, last_seen)
used by the eviction sort in _add_insight. -/
def insightEvictLe (a b : LearningInsight) : Bool :=
  decide (a.confidenceScore < b.confidenceScore ∨
    (a.confidenceScore = b.confidenceScore ∧ a.lastSeen ≤ b.lastSeen))

/-- Embedding of _add_insight (search_learning_system.py lines 315-354).
The unused evidence_source argument of the Python function is omitted. -/
def addInsight (now : ℚ) (cfg : LearningConfig) (insights : List LearningInsight)
    (pt ot sm : Str) (conf : ℚ) : List LearningInsight :=
  let ins1 :=
    match updateFirstInsight now pt ot sm insights with
    | some l => l
    | none => insights ++ [⟨pt, ot, sm, conf, 1, now, now, 0, 0⟩]
  if ins1.length > cfg.maxInsights
  then pySliceLast cfg.maxInsights (stableSort insightEvictLe ins1)
  else ins1

/-- Embedding of cleanup_old_data (search_learning_system.py lines 456-481).
Returns the new state, the removed-record count returned to the caller, and
whether save_learning_data ran. -/
def cleanupOldData (now : ℚ) (cfg : LearningConfig) (st : LearnState) :
    LearnState × Nat × Bool :=
  let cutoff := now - ((cfg.cleanupAgeDays : ℚ) * 24 * 3600)
  let fs2 := st.failedSearches.filter (fun s => decide (s.timestamp > cutoff))
  let ins2 := st.insights.filter
    (fun i => decide (i.lastSeen > cutoff ∨ i.confidenceScore > cfg.minConfidenceThreshold))
  let removed := (st.failedSearches.length - fs2.length) + (st.insights.length - ins2.length)
  (⟨fs2, ins2, st.dictionaries⟩, removed, decide (removed > 0))

/-- Example of evaluating the embedding on a tiny input (smoke test). -/
example : pyStrip "  ab ".toList = "ab".toList := by decide

/-- One suggestion dict built by get_improvement_suggestions (lines
372-379): original, suggestion, confidence, evidence_count, confirmations,
rejections.  Python compares these dicts by value in the membership test of
apply_high_confidence_suggestions. -/
structure Suggestion where
  original : Str
  suggestion : Str
  confidence : ℚ
  evidenceCount : Nat
  confirmations : Nat
  rejections : Nat
deriving DecidableEq, Repr

/-- The suggestions dict literal of get_improvement_suggestions (lines
358-366), in its Python insertion order: typo, typos, synonym, synonyms,
intent, intents, high_confidence. -/
structure SuggestionBuckets where
  typo : List Suggestion
  typos : List Suggestion
  synonym : List Suggestion
  synonyms : List Suggestion
  intent : List Suggestion
  intents : List Suggestion
  highConfidence : List Suggestion
deriving DecidableEq, Repr

/-- The suggestion dict built from one qualifying insight. -/
def mkSuggestion (i : LearningInsight) : Suggestion :=
  ⟨i.originalTerm, i.suggestedMapping, i.confidenceScore, i.evidenceCount,
   i.userConfirmations, i.userRejections⟩

/-- Append s to the bucket whose dict key equals name, when one exists
(the Python test pattern_type in suggestions, then suggestions[k].append). -/
def bucketPush (b : SuggestionBuckets) (name : Str) (s : Suggestion) : SuggestionBuckets :=
  if name = "typo".toList then { b with typo := b.typo ++ [s] }
  else if name = "typos".toList then { b with typos := b.typos ++ [s] }
  else if name = "synonym".toList then { b with synonym := b.synonym ++ [s] }
  else if name = "synonyms".toList then { b with synonyms := b.synonyms ++ [s] }
  else if name = "intent".toList then { b with intent := b.intent ++ [s] }
  else if name = "intents".toList then { b with intents := b.intents ++ [s] }
  else if name = "high_confidence".toList then { b with highConfidence := b.highConfidence ++ [s] }
  else b

/-- Process one insight that passed the evidence and confidence gate (lines
381-393): append its suggestion under its pattern type, under the plural
form of its pattern type, and, when its confidence reaches the auto-apply
threshold, under high_confidence. -/
def bucketAdd (cfg : LearningConfig) (b : SuggestionBuckets) (i : LearningInsight) :
    SuggestionBuckets :=
  let s := mkSuggestion i
  let b1 := bucketPush b i.patternType s
  let b2 := bucketPush b1 (i.patternType ++ "s".toList) s
  if i.confidenceScore ≥ cfg.autoApplyThreshold
  then { b2 with highConfidence := b2.highConfidence ++ [s] }
  else b2

/-- Scan of all insights in get_improvement_suggestions (lines 368-393). -/
def buildBuckets (cfg : LearningConfig) (insights : List LearningInsight) : SuggestionBuckets :=
  insights.foldl
    (fun b i =>
      if i.evidenceCount ≥ cfg.minEvidenceCount ∧
         i.confidenceScore ≥ cfg.minConfidenceThreshold
      then bucketAdd cfg b i else b)
    ⟨[], [], [], [], [], [], []⟩

/-- Descending stable comparison by (confidence, evidence_count), the key
of the final sort of get_improvement_suggestions (lines 396-400). -/
def suggDescLe (a b : Suggestion) : Bool :=
  decide (b.confidence < a.confidence ∨
    (b.confidence = a.confidence ∧ b.evidenceCount ≤ a.evidenceCount))

/-- Sort every bucket as get_improvement_suggestions does before returning. -/
def sortBuckets (b : SuggestionBuckets) : SuggestionBuckets :=
  ⟨stableSort suggDescLe b.typo, stableSort suggDescLe b.typos,
   stableSort suggDescLe b.synonym, stableSort suggDescLe b.synonyms,
   stableSort suggDescLe b.intent, stableSort suggDescLe b.intents,
   stableSort suggDescLe b.highConfidence⟩

/-- Embedding of get_improvement_suggestions (lines 356-402). -/
def getImprovementSuggestions (cfg : LearningConfig) (insights : List LearningInsight) :
    SuggestionBuckets :=
  sortBuckets (buildBuckets cfg insights)

/-- Category names of the suggestions dict other than high_confidence, as an
enumeration for the category search of apply_high_confidence_suggestions. -/
inductive SuggCategory where
  | typoCat | typosCat | synonymCat | synonymsCat | intentCat | intentsCat
deriving DecidableEq, Repr

/-- The category search of apply_high_confidence_suggestions (lines
410-414): walk the suggestions dict in insertion order and return the first
category other than high_confidence whose list contains the suggestion. -/
def firstCategory (b : SuggestionBuckets) (s : Suggestion) : Option SuggCategory :=
  if s ∈ b.typo then some SuggCategory.typoCat
  else if s ∈ b.typos then some SuggCategory.typosCat
  else if s ∈ b.synonym then some SuggCategory.synonymCat
  else if s ∈ b.synonyms then some SuggCategory.synonymsCat
  else if s ∈ b.intent then some SuggCategory.intentCat
  else if s ∈ b.intents then some SuggCategory.intentsCat
  else none

/-- Body of the loop of apply_high_confidence_suggestions (lines 409-449)
for one high-confidence suggestion: look up its category, then apply the
branch for typos, synonyms or intents; the branches compare the category
against the plural names only. -/
def applyOne (b : SuggestionBuckets) (acc : Dictionaries × Nat) (s : Suggestion) :
    Dictionaries × Nat :=
  match firstCategory b s with
  | none => acc
  | some SuggCategory.typosCat =>
      if (alookup s.original acc.1.typos).isSome then acc
      else ({ acc.1 with typos := aset s.original s.suggestion acc.1.typos }, acc.2 + 1)
  | some SuggCategory.synonymsCat =>
      (match alookup s.suggestion acc.1.synonyms with
       | some lst =>
           if s.original ∈ lst then acc
           else ({ acc.1 with synonyms := aset s.suggestion (lst ++ [s.original]) acc.1.synonyms },
                 acc.2 + 1)
       | none =>
           ({ acc.1 with synonyms := aset s.original [s.suggestion] acc.1.synonyms }, acc.2 + 1))
  | some SuggCategory.intentsCat =>
      (match alookup s.suggestion acc.1.intents with
       | some lst =>
           if s.original ∈ lst then acc
           else ({ acc.1 with intents := aset s.suggestion (lst ++ [s.original]) acc.1.intents },
                 acc.2 + 1)
       | none =>
           ({ acc.1 with intents := aset s.original [s.suggestion] acc.1.intents }, acc.2 + 1))
  | some _ => acc

/-- Embedding of apply_high_confidence_suggestions (lines 404-454): run the
loop over the sorted high_confidence bucket, returning the new dictionaries,
the applied count, and whether save_dictionaries ran. -/
def applyHighConfidenceSuggestions (cfg : LearningConfig)
    (insights : List LearningInsight) (dicts : Dictionaries) :
    Dictionaries × Nat × Bool :=
  let b := getImprovementSuggestions cfg insights
  let r := b.highConfidence.foldl (applyOne b) (dicts, 0)
  (r.1, r.2, decide (r.2 > 0))

/-- Replacement applied to one word by correct_typos (i3-help.py lines
302-311): self.typos.get(word.lower(), word). -/
def fixWord (typos : List (Str × Str)) (w : Str) : Str :=
  (alookup (lowerStr w) typos).getD w

/-- Embedding of correct_typos (i3-help.py lines 302-311): split the text on
whitespace, replace each word that is a key of the typo map (after
lower-casing) by its correction, and join with single spaces. -/
def correctTypos (typos : List (Str × Str)) (text : Str) : Str :=
  List.intercalate [' '] ((splitWs text).map (fixWord typos))

/-- Terms contributed by one synonym dictionary entry during reverse lookup:
the key and all its values. -/
def groupTerms (p : Str × List Str) : Finset Str :=
  insert p.1 p.2.toFinset

/-- The reverse-lookup loop of expand_synonyms (i3-help.py lines 282-285):
for every dictionary entry whose value list contains the word, add the key
and all sibling values. -/
def reverseGroups (syns : List (Str × List Str)) (w : Str) : Finset Str :=
  syns.foldr (fun p acc => if w ∈ p.2 then groupTerms p ∪ acc else acc) ∅

/-- All terms one word contributes in expand_synonyms: the word itself, a
direct key lookup, and the reverse lookup. -/
def expandOne (syns : List (Str × List Str)) (w : Str) : Finset Str :=
  insert w (((alookup w syns).getD []).toFinset ∪ reverseGroups syns w)

/-- Embedding of expand_synonyms (i3-help.py lines 274-289) on a set of
words (the Python function builds a set; union order is immaterial). -/
def expandSynonymsF (syns : List (Str × List Str)) (words : Finset Str) : Finset Str :=
  words ∪ words.biUnion (expandOne syns)

/-- Embedding of expand_synonyms on its actual list argument. -/
def expandSynonyms (syns : List (Str × List Str)) (words : List Str) : Finset Str :=
  expandSynonymsF syns words.toFinset

/-- Binding record as used by score_binding (natural_language_search.py):
the fields read through binding.get are description, command, key and
search_text. -/
structure Binding where
  description : Str
  command : Str
  key : Str
  searchText : Str
deriving DecidableEq, Repr

/-- The lowered full text of a binding built by score_binding at line 245:
description, command and key joined by single spaces. -/
def bindingFullText (b : Binding) : Str :=
  lowerStr (b.description ++ [' '] ++ b.command ++ [' '] ++ b.key)

/-- The lowered precomputed search text read by score_binding at line 246. -/
def bindingSearchText (b : Binding) : Str :=
  lowerStr b.searchText

/-- Length of the longest common prefix of two strings. -/
def cpl : Str → Str → Nat
  | c :: a, d :: b => if c = d then cpl a b + 1 else 0
  | _, _ => 0

/-- Update step of the find_longest_match scan at one candidate block start
(i, j): record the block when its run length strictly exceeds the best so
far. -/
def flmStep (a b : Str) (i : Nat) (best : Nat × Nat × Nat) (j : Nat) : Nat × Nat × Nat :=
  if cpl (a.drop i) (b.drop j) > best.2.2 then (i, j, cpl (a.drop i) (b.drop j)) else best

/-- Model of difflib.SequenceMatcher.find_longest_match (with no junk and no
autojunk; autojunk only triggers on second sequences of length at least 200,
far above the word lengths compared here): the longest block (i, j, k) with
a[i:i+k] = b[j:j+k], maximizing k and breaking ties by the smallest i and
then the smallest j, which is exactly the block the difflib dynamic program
reports.  The scan records the first block in (i, j) order attaining each
strictly larger size, which realizes that tie-break. -/
def findLongestMatch (a b : Str) : Nat × Nat × Nat :=
  (List.range a.length).foldl
    (fun best i => (List.range b.length).foldl (flmStep a b i) best)
    (0, 0, 0)

/-- Worker for matchingTotal, structurally recursive on a fuel argument so
that it reduces by computation.  Each recursive call strictly decreases
a.length + b.length (the reported block has size at least one and lies
inside both strings), so fuel equal to that sum always suffices: when the
fuel hits zero both strings are empty and the longest match is empty too. -/
def mtFuel : Nat → Str → Str → Nat
  | 0, _, _ => 0
  | fuel + 1, a, b =>
    let r := findLongestMatch a b
    if r.2.2 = 0 then 0
    else
      mtFuel fuel (a.take r.1) (b.take r.2.1) + r.2.2 +
      mtFuel fuel (a.drop (r.1 + r.2.2)) (b.drop (r.2.1 + r.2.2))

/-- Model of the total size of the matching blocks of
difflib.SequenceMatcher (the recursive split of get_matching_blocks around
each longest match; the final merge of adjacent blocks does not change the
total). -/
def matchingTotal (a b : Str) : Nat := mtFuel (a.length + b.length) a b

/-- Model of difflib.SequenceMatcher(None, a, b).ratio(): twice the number
of matched characters over the total length, and 1 when both strings are
empty (difflib returns 1.0 when the combined length is zero). -/
def similarity (a b : Str) : ℚ :=
  if a.length + b.length = 0 then 1
  else (2 * (matchingTotal a b : ℚ)) / ((a.length : ℚ) + (b.length : ℚ))

/-- Nonemptiness of difflib.get_close_matches(word, possibilities, n=1,
cutoff=4/5): some possibility x has SequenceMatcher(None, x, word) ratio at
least the cutoff.  The quick-ratio prefilters of get_close_matches are upper
bounds of ratio, so they never change which possibilities pass. -/
def hasCloseMatch (possibilities : List Str) (word : Str) : Bool :=
  possibilities.any (fun x => decide (similarity x word ≥ 4/5))

/-- Exact-containment tier of score_binding (natural_language_search.py
lines 249-253): 10 when the keyword occurs in the full binding text, else 8
when it occurs in the search text, else 0.  The elif makes the two amounts
mutually exclusive for one keyword. -/
def exactTierContrib (btext bsearch kw : Str) : ℚ :=
  if kw <:+: btext then 10 else if kw <:+: bsearch then 8 else 0

/-- Word-level tier of score_binding (lines 255-262): each word of the
keyword longer than two characters adds 3 when it occurs in the full text,
else 2 when it occurs in the search text. -/
def wordTierContrib (btext bsearch kw : Str) : ℚ :=
  (splitWs kw).foldl
    (fun acc w =>
      acc + (if w.length > 2 then
               (if w <:+: btext then (3 : ℚ) else if w <:+: bsearch then 2 else 0)
             else 0))
    0

/-- Fuzzy tier of score_binding (lines 264-268): a flat 5 when some word of
the full binding text is a close match of the keyword. -/
def fuzzyContrib (btext kw : Str) : ℚ :=
  if hasCloseMatch (splitWs btext) kw then 5 else 0

/-- Embedding of score_binding (natural_language_search.py lines 240-270):
the first loop accumulates the exact tier and the word tier per keyword, the
second loop the fuzzy tier. -/
def scoreBinding (b : Binding) (keywords : List Str) : ℚ :=
  let btext := bindingFullText b
  let bsearch := bindingSearchText b
  let s1 := keywords.foldl
    (fun acc kw => acc + exactTierContrib btext bsearch kw + wordTierContrib btext bsearch kw) 0
  keywords.foldl (fun acc kw => acc + fuzzyContrib btext kw) s1

/-- Trivial analysis step used to instantiate the analyze parameter in
concrete evaluations: it leaves the insight list unchanged. -/
def analyzeId : AnalyzeFn := fun _ _ ins _ => ins

/-- Helper building a FailedSearch record as record_failed_search stores it. -/
def mkFS (q : Str) (t : ℚ) : FailedSearch := ⟨q, t, 0, [], none, none, []⟩

/-- Sample failed search older than the default cleanup cutoff (for a call
at time 4000000, the 30-day cutoff is 1408000). -/
def sampleOldSearch : FailedSearch := mkFS "volume".toList 1000000

/-- Sample failed search newer than the cleanup cutoff. -/
def sampleNewSearch : FailedSearch := mkFS "screen".toList 2000000

/-- Sample old low-confidence insight (must be removed by cleanup). -/
def sampleLowInsight : LearningInsight :=
  ⟨"typo".toList, "volme".toList, "volume".toList, 1/10, 1, 100, 100, 0, 0⟩

/-- Sample old high-confidence insight (must survive cleanup). -/
def sampleHighInsight : LearningInsight :=
  ⟨"typo".toList, "sceen".toList, "screen".toList, 9/10, 3, 100, 100, 0, 0⟩

/-- Sample state for the cleanup evaluation. -/
def sampleCleanupState : LearnState :=
  ⟨[sampleOldSearch, sampleNewSearch], [sampleLowInsight, sampleHighInsight], emptyDicts⟩

/-- State with eleven stored failed searches whose only record matching the
query is the oldest one, outside the window of ten that
record_user_selection examines. -/
def elevenState : LearnState :=
  ⟨mkFS "q".toList 100 :: List.replicate 10 (mkFS "other".toList 100), [], emptyDicts⟩

/-- Configuration whose insight store holds a single record, exposing the
capacity eviction inside _add_insight. -/
def tinyInsightConfig : LearningConfig := { defaultConfig with maxInsights := 1 }

/-- Configuration with a failed-search cap of two, for a concrete run of the
FIFO eviction. -/
def tinyQueueConfig : LearningConfig := { defaultConfig with maxFailedSearches := 2 }

/-- Three record_failed_search inputs with non-blank queries. -/
def threeInputs : List RecordInput :=
  [⟨10, "a".toList, 0, [], []⟩, ⟨11, "b".toList, 0, [], []⟩, ⟨12, "c".toList, 0, [], []⟩]

/-- Typo insight that clears both default auto-apply gates
(evidence 2 at least min 2, confidence 0.81 at least 0.8). -/
def bugInsight : LearningInsight :=
  ⟨"typo".toList, "teh".toList, "the".toList, 81/100, 2, 50, 50, 0, 0⟩

/-- One-entry typo dictionary. -/
def typoDict : List (Str × Str) := [("teh".toList, "the".toList)]

/-- Synonym dictionary whose entries chain (the value of the first entry is
the key of the second). -/
def chainSyns : List (Str × List Str) :=
  [("a".toList, ["b".toList]), ("b".toList, ["c".toList])]

/-- Binding whose full text contains the keyword as a substring while its
search text equals the keyword. -/
def sampleBinding : Binding := ⟨"axyb".toList, [], [], "xy".toList⟩

/-
Theorems.  Each claim Cn of the specification review is settled by one
theorem named cN_... below; shared helper lemmas come first.
-/

/-- Stripping a string of whitespace only yields the empty string. -/
theorem pyStrip_eq_nil_of_all_ws (q : Str) (h : ∀ c ∈ q, isPyWs c) : pyStrip q = [] := by
  have h1 : q.dropWhile isPyWs = [] := by
    rw [List.dropWhile_eq_nil_iff]
    exact h
  rw [pyStrip, h1]
  rfl

/-- C10: for every query that is empty or consists only of whitespace,
record_failed_search returns immediately: the failed-search list, the
insight list and the dictionaries are unchanged (whatever the analysis step
does), and save_learning_data never runs, so nothing is persisted. -/
theorem c10_blank_query_noop (analyze : AnalyzeFn) (now : ℚ) (cfg : LearningConfig)
    (st : LearnState) (query : Str) (resultCount : Int) (suggestedMatches : List Str)
    (sessionId : Str) (h : ∀ c ∈ query, isPyWs c) :
    recordFailedSearch analyze now cfg st query resultCount suggestedMatches sessionId
      = (st, false) := by
  rw [recordFailedSearch, if_pos (pyStrip_eq_nil_of_all_ws query h)]

/-- Witness for C10 at the two-space query. -/
theorem c10_blank_query_noop_witness :
    (∀ c ∈ "  ".toList, isPyWs c) ∧
    recordFailedSearch analyzeId 5 defaultConfig ⟨[], [], emptyDicts⟩ "  ".toList 0 [] []
      = (⟨[], [], emptyDicts⟩, false) :=
  ⟨by decide, c10_blank_query_noop analyzeId 5 defaultConfig ⟨[], [], emptyDicts⟩
    "  ".toList 0 [] [] (by decide)⟩

/-- Counting the records a filter removes. -/
theorem length_sub_filter (p : α → Bool) :
    ∀ l : List α, l.length - (l.filter p).length = l.countP (fun a => !p a) := by
  intro l
  induction l with
  | nil => rfl
  | cons x xs ih =>
    have hle := List.length_filter_le p xs
    cases hx : p x with
    | true =>
      simp [List.filter_cons, List.countP_cons, hx]
      omega
    | false =>
      simp [List.filter_cons, List.countP_cons, hx]
      omega

/-- C9: cleanup_old_data removes every failed search older than the age
cutoff, removes every insight older than the cutoff whose confidence does
not exceed the minimum confidence threshold, retains every insight whose
confidence exceeds that threshold regardless of age, and returns the total
number of records removed. -/
theorem c9_cleanup_spec (now : ℚ) (cfg : LearningConfig) (st : LearnState) :
    (∀ s ∈ st.failedSearches,
        s.timestamp < now - ((cfg.cleanupAgeDays : ℚ) * 24 * 3600) →
        s ∉ (cleanupOldData now cfg st).1.failedSearches) ∧
    (∀ i ∈ st.insights,
        i.lastSeen < now - ((cfg.cleanupAgeDays : ℚ) * 24 * 3600) →
        i.confidenceScore ≤ cfg.minConfidenceThreshold →
        i ∉ (cleanupOldData now cfg st).1.insights) ∧
    (∀ i ∈ st.insights,
        i.confidenceScore > cfg.minConfidenceThreshold →
        i ∈ (cleanupOldData now cfg st).1.insights) ∧
    (cleanupOldData now cfg st).2.1 =
      st.failedSearches.countP
        (fun s => decide (s.timestamp ≤ now - ((cfg.cleanupAgeDays : ℚ) * 24 * 3600))) +
      st.insights.countP
        (fun i => decide (i.lastSeen ≤ now - ((cfg.cleanupAgeDays : ℚ) * 24 * 3600) ∧
                          i.confidenceScore ≤ cfg.minConfidenceThreshold)) := by
  refine ⟨?_, ?_, ?_, ?_⟩
  · intro s _ hold hmem
    rw [cleanupOldData] at hmem
    simp only [List.mem_filter, decide_eq_true_eq] at hmem
    exact absurd hmem.2 (by linarith)
  · intro i _ hold hconf hmem
    rw [cleanupOldData] at hmem
    simp only [List.mem_filter, decide_eq_true_eq] at hmem
    rcases hmem.2 with h | h
    · linarith
    · linarith
  · intro i hi hconf
    rw [cleanupOldData]
    simp only [List.mem_filter, decide_eq_true_eq]
    exact ⟨hi, Or.inr hconf⟩
  · rw [cleanupOldData]
    simp only
    rw [length_sub_filter, length_sub_filter]
    have e1 : ∀ s : FailedSearch,
        (!decide (s.timestamp > now - ((cfg.cleanupAgeDays : ℚ) * 24 * 3600))) =
        decide (s.timestamp ≤ now - ((cfg.cleanupAgeDays : ℚ) * 24 * 3600)) := by
      intro s
      rw [← decide_not]
      simp [not_lt]
    have e2 : ∀ i : LearningInsight,
        (!decide (i.lastSeen > now - ((cfg.cleanupAgeDays : ℚ) * 24 * 3600) ∨
                  i.confidenceScore > cfg.minConfidenceThreshold)) =
        decide (i.lastSeen ≤ now - ((cfg.cleanupAgeDays : ℚ) * 24 * 3600) ∧
                i.confidenceScore ≤ cfg.minConfidenceThreshold) := by
      intro i
      rw [← decide_not]
      simp [not_or, not_lt]
    congr 1
    · exact List.countP_congr (fun s _ => by rw [e1 s])
    · exact List.countP_congr (fun i _ => by rw [e2 i])

/-- Witness for C9: in the sample state the old high-confidence insight is
retained, the old low-confidence insight is removed, and the old failed
search is removed. -/
theorem c9_cleanup_spec_witness :
    sampleHighInsight ∈ (cleanupOldData 4000000 defaultConfig sampleCleanupState).1.insights ∧
    sampleLowInsight ∉ (cleanupOldData 4000000 defaultConfig sampleCleanupState).1.insights ∧
    sampleOldSearch ∉ (cleanupOldData 4000000 defaultConfig sampleCleanupState).1.failedSearches :=
  ⟨(c9_cleanup_spec 4000000 defaultConfig sampleCleanupState).2.2.1 sampleHighInsight
      (by simp [sampleCleanupState]) (by norm_num [sampleHighInsight, defaultConfig]),
   (c9_cleanup_spec 4000000 defaultConfig sampleCleanupState).2.1 sampleLowInsight
      (by simp [sampleCleanupState]) (by norm_num [sampleLowInsight, defaultConfig])
      (by norm_num [sampleLowInsight, defaultConfig]),
   (c9_cleanup_spec 4000000 defaultConfig sampleCleanupState).1 sampleOldSearch
      (by simp [sampleCleanupState]) (by norm_num [sampleOldSearch, mkFS, defaultConfig])⟩

/-- For a positive cap, the conditional trim of record_failed_search is an
unconditional drop of all but the last m elements. -/
theorem trim_eq_drop (m : Nat) (hm : 0 < m) (l : List α) :
    (if l.length > m then pySliceLast m l else l) = l.drop (l.length - m) := by
  by_cases hl : l.length > m
  · rw [if_pos hl, pySliceLast, if_neg (Nat.pos_iff_ne_zero.mp hm)]
  · rw [if_neg hl]
    have : l.length - m = 0 := by omega
    rw [this, List.drop_zero]

/-- Dropping to the last m elements commutes with appending more elements
and dropping to the last m at the end. -/
theorem drop_absorb (m : Nat) (l rest : List α) :
    ((l.drop (l.length - m)) ++ rest).drop (((l.drop (l.length - m)) ++ rest).length - m)
    = (l ++ rest).drop ((l ++ rest).length - m) := by
  rw [List.drop_append_eq_append_drop, List.drop_append_eq_append_drop, List.drop_drop]
  congr 1
  · congr 1
    simp only [List.length_append, List.length_drop]
    omega
  · congr 1
    simp only [List.length_append, List.length_drop]
    omega

/-- One non-blank record_failed_search call appends the normalized record
and keeps the last m stored records. -/
theorem recordFailedSearch_fs_step (analyze : AnalyzeFn) (now : ℚ) (cfg : LearningConfig)
    (st : LearnState) (q : Str) (rc : Int) (sm : List Str) (sid : Str)
    (hq : ¬ pyStrip q = []) (hm : 0 < cfg.maxFailedSearches) :
    (recordFailedSearch analyze now cfg st q rc sm sid).1.failedSearches
      = (st.failedSearches ++ [FailedSearch.mk (normQuery q) now rc sm none none sid]).drop
          ((st.failedSearches ++ [FailedSearch.mk (normQuery q) now rc sm none none sid]).length
            - cfg.maxFailedSearches) := by
  rw [recordFailedSearch, if_neg hq]
  simp only
  rw [trim_eq_drop cfg.maxFailedSearches hm]

/-- Running a non-empty sequence of non-blank record_failed_search calls
leaves exactly the last m elements of the old store followed by the new
records. -/
theorem runRecordSeq_fs (analyze : AnalyzeFn) (cfg : LearningConfig)
    (hm : 0 < cfg.maxFailedSearches) :
    ∀ (inputs : List RecordInput) (st : LearnState),
    (∀ inp ∈ inputs, ¬ pyStrip inp.query = []) → inputs ≠ [] →
    (runRecordSeq analyze cfg st inputs).failedSearches
      = (st.failedSearches ++ inputs.map toFailedRecord).drop
          ((st.failedSearches ++ inputs.map toFailedRecord).length - cfg.maxFailedSearches) := by
  intro inputs
  induction inputs with
  | nil => intro st _ hne; exact absurd rfl hne
  | cons inp rest ih =>
    intro st hnb _
    rw [runRecordSeq]
    have hq : ¬ pyStrip inp.query = [] := hnb inp (List.mem_cons_self _ _)
    have hstep := recordFailedSearch_fs_step analyze inp.now cfg st inp.query
      inp.resultCount inp.suggestedMatches inp.sessionId hq hm
    by_cases hrest : rest = []
    · subst hrest
      rw [runRecordSeq]
      rw [hstep]
      simp only [List.map_cons, List.map_nil]
      rfl
    · rw [ih _ (fun i hi => hnb i (List.mem_cons_of_mem _ hi)) hrest]
      rw [hstep]
      simp only [List.map_cons]
      have := drop_absorb cfg.maxFailedSearches
        (st.failedSearches ++ [FailedSearch.mk (normQuery inp.query) inp.now inp.resultCount
          inp.suggestedMatches none none inp.sessionId])
        (rest.map toFailedRecord)
      rw [this]
      rw [List.append_assoc]
      rfl

/-- C8: after any sequence of record_failed_search calls inserting more
non-blank queries than the (positive) configured maximum, the stored count
equals exactly the configured maximum, and the retained records are exactly
the records of the most recently inserted queries, the oldest evicted. -/
theorem c8_fifo_bounded (analyze : AnalyzeFn) (cfg : LearningConfig) (st : LearnState)
    (inputs : List RecordInput) (hm : 0 < cfg.maxFailedSearches)
    (hnb : ∀ inp ∈ inputs, ¬ pyStrip inp.query = [])
    (hlen : cfg.maxFailedSearches < inputs.length) :
    (runRecordSeq analyze cfg st inputs).failedSearches
      = pySliceLast cfg.maxFailedSearches (inputs.map toFailedRecord) ∧
    (runRecordSeq analyze cfg st inputs).failedSearches.length = cfg.maxFailedSearches := by
  have hne : inputs ≠ [] := by
    intro h
    rw [h] at hlen
    exact absurd hlen (by simp)
  have hmain := runRecordSeq_fs analyze cfg hm inputs st hnb hne
  have hmaplen : (inputs.map toFailedRecord).length = inputs.length := List.length_map _ _
  have heq : (runRecordSeq analyze cfg st inputs).failedSearches
      = (inputs.map toFailedRecord).drop ((inputs.map toFailedRecord).length
          - cfg.maxFailedSearches) := by
    rw [hmain, List.drop_append_eq_append_drop]
    have h1 : st.failedSearches.drop
        ((st.failedSearches ++ inputs.map toFailedRecord).length - cfg.maxFailedSearches)
        = [] := by
      apply List.drop_eq_nil_of_le
      simp only [List.length_append]
      omega
    rw [h1, List.nil_append]
    congr 1
    simp only [List.length_append]
    omega
  constructor
  · rw [heq, pySliceLast, if_neg (Nat.pos_iff_ne_zero.mp hm)]
  · rw [heq, List.length_drop]
    omega

/-- Witness for C8: with a cap of two, three insertions retain exactly the
last two records. -/
theorem c8_fifo_bounded_witness :
    0 < tinyQueueConfig.maxFailedSearches ∧
    tinyQueueConfig.maxFailedSearches < threeInputs.length ∧
    ((runRecordSeq analyzeId tinyQueueConfig ⟨[], [], emptyDicts⟩ threeInputs).failedSearches
       = pySliceLast tinyQueueConfig.maxFailedSearches (threeInputs.map toFailedRecord) ∧
     (runRecordSeq analyzeId tinyQueueConfig ⟨[], [], emptyDicts⟩
        threeInputs).failedSearches.length = tinyQueueConfig.maxFailedSearches) :=
  ⟨by decide, by decide,
   c8_fifo_bounded analyzeId tinyQueueConfig ⟨[], [], emptyDicts⟩ threeInputs
     (by decide) (by decide) (by decide)⟩

/-- No element satisfying the predicate means no update. -/
theorem updateLastMatching_none (p : α → Bool) (f : α → α) :
    ∀ l : List α, (∀ x ∈ l, p x = false) → updateLastMatching p f l = none := by
  intro l
  induction l with
  | nil => intro _; rfl
  | cons x xs ih =>
    intro h
    rw [updateLastMatching, ih (fun y hy => h y (List.mem_cons_of_mem _ hy)),
      h x (List.mem_cons_self _ _)]
    simp

/-- The updated element is the last match: splitting the list around a match
with no later match, the update lands exactly there. -/
theorem updateLastMatching_split (p : α → Bool) (f : α → α) :
    ∀ (u : List α) (m : α) (v : List α), p m = true → (∀ x ∈ v, p x = false) →
    updateLastMatching p f (u ++ m :: v) = some (u ++ f m :: v, f m) := by
  intro u
  induction u with
  | nil =>
    intro m v hm hv
    rw [List.nil_append, updateLastMatching, updateLastMatching_none p f v hv, hm]
    simp
  | cons x u ih =>
    intro m v hm hv
    rw [List.cons_append, updateLastMatching, ih m v hm hv]
    simp

/-- When no record in the examined window matches, record_user_selection
changes nothing and persists nothing. -/
theorem recordUserSelection_nomatch (analyzeSel : AnalyzeFn) (now : ℚ)
    (cfg : LearningConfig) (st : LearnState) (query sel : Str)
    (h : ∀ s ∈ pySliceLast 10 st.failedSearches,
      fsSelMatch now (normQuery query) s = false) :
    recordUserSelection analyzeSel now cfg st query sel = (st, false) := by
  rw [recordUserSelection, updateLastMatching_none _ _ _ h]

/-- C3 (amended): record_user_selection looks only at the 10 most recently
stored records.  If none of them has the normalized query, an unset
user_selected and a timestamp within 300 seconds, every stored record is
left unchanged and nothing is persisted; otherwise the most recent matching
record among those 10 receives user_selected, every other record unchanged
and the dictionaries untouched. -/
theorem c3_selection_window (analyzeSel : AnalyzeFn) (now : ℚ) (cfg : LearningConfig)
    (st : LearnState) (query sel : Str) :
    ((∀ s ∈ pySliceLast 10 st.failedSearches,
        fsSelMatch now (normQuery query) s = false) →
      recordUserSelection analyzeSel now cfg st query sel = (st, false)) ∧
    (∀ (u : List FailedSearch) (m : FailedSearch) (v : List FailedSearch),
        pySliceLast 10 st.failedSearches = u ++ m :: v →
        fsSelMatch now (normQuery query) m = true →
        (∀ x ∈ v, fsSelMatch now (normQuery query) x = false) →
        (recordUserSelection analyzeSel now cfg st query sel).1.failedSearches
          = st.failedSearches.take
              (st.failedSearches.length - (pySliceLast 10 st.failedSearches).length)
            ++ u ++ ({ m with userSelected := some sel } :: v) ∧
        (recordUserSelection analyzeSel now cfg st query sel).1.dictionaries
          = st.dictionaries) := by
  constructor
  · exact recordUserSelection_nomatch analyzeSel now cfg st query sel
  · intro u m v heq hm hv
    rw [recordUserSelection, heq, updateLastMatching_split _ _ u m v hm hv]
    simp [List.append_assoc]

/-- Witness for C3: with a single fresh matching record stored, the
selection is recorded on it. -/
theorem c3_selection_window_witness :
    (recordUserSelection analyzeId 200 defaultConfig
        ⟨[mkFS "q".toList 100], [], emptyDicts⟩ "q".toList "bind".toList).1.failedSearches
      = [{ mkFS "q".toList 100 with userSelected := some "bind".toList }] :=
  by
    have h := (c3_selection_window analyzeId 200 defaultConfig
      ⟨[mkFS "q".toList 100], [], emptyDicts⟩ "q".toList "bind".toList).2
      [] (mkFS "q".toList 100) []
      (by with_unfolding_all decide)
      (by with_unfolding_all decide)
      (by intro x hx; cases hx)
    rw [h.1]
    with_unfolding_all decide

/-- C3 counterexample: with eleven stored records whose only match for the
query is the oldest one, the claim requires that record to receive the
selection, but record_user_selection (which scans only the last 10) leaves
every record unchanged. -/
theorem c3_selection_counterexample :
    fsSelMatch 200 (normQuery "q".toList) (mkFS "q".toList 100) = true ∧
    mkFS "q".toList 100 ∈ elevenState.failedSearches ∧
    recordUserSelection analyzeId 200 defaultConfig elevenState "q".toList "bind".toList
      = (elevenState, false) ∧
    (∀ s ∈ (recordUserSelection analyzeId 200 defaultConfig elevenState
        "q".toList "bind".toList).1.failedSearches, s.userSelected = none) := by
  refine ⟨by with_unfolding_all decide, by with_unfolding_all decide, ?_, ?_⟩
  · exact recordUserSelection_nomatch analyzeId 200 defaultConfig elevenState
      "q".toList "bind".toList (by with_unfolding_all decide)
  · rw [recordUserSelection_nomatch analyzeId 200 defaultConfig elevenState
      "q".toList "bind".toList (by with_unfolding_all decide)]
    with_unfolding_all decide

/-- When no stored insight carries the triple, the merge scan finds
nothing. -/
theorem updateFirstInsight_none (now : ℚ) (pt ot sm : Str) :
    ∀ l : List LearningInsight,
    (∀ i ∈ l, ¬ (i.patternType = pt ∧ i.originalTerm = ot ∧ i.suggestedMapping = sm)) →
    updateFirstInsight now pt ot sm l = none := by
  intro l
  induction l with
  | nil => intro _; rfl
  | cons i rest ih =>
    intro h
    rw [updateFirstInsight, if_neg (h i (List.mem_cons_self _ _)),
      ih (fun j hj => h j (List.mem_cons_of_mem _ hj))]
    rfl

/-- When only the final element carries the triple, the merge scan updates
exactly it. -/
theorem updateFirstInsight_append_last (now : ℚ) (pt ot sm : Str)
    (l : List LearningInsight) (x : LearningInsight)
    (hl : ∀ i ∈ l, ¬ (i.patternType = pt ∧ i.originalTerm = ot ∧ i.suggestedMapping = sm))
    (hx : x.patternType = pt ∧ x.originalTerm = ot ∧ x.suggestedMapping = sm) :
    updateFirstInsight now pt ot sm (l ++ [x])
      = some (l ++ [{ x with evidenceCount := x.evidenceCount + 1,
                             lastSeen := now,
                             confidenceScore := min 1 (x.confidenceScore + 1/10) }]) := by
  induction l with
  | nil =>
    rw [List.nil_append, updateFirstInsight, if_pos hx]
    rfl
  | cons i rest ih =>
    rw [List.cons_append, updateFirstInsight,
      if_neg (hl i (List.mem_cons_self _ _)),
      ih (fun j hj => hl j (List.mem_cons_of_mem _ hj))]
    rfl

/-- C7 (amended): provided the triple (patternType, originalTerm,
suggestedMapping) is not yet stored and the insight store stays within
maxInsights (so no capacity eviction fires), recording it twice yields
exactly one stored insight for the triple, with evidenceCount 2,
confidenceScore min(1, initial + 0.1), firstSeen from the first recording
and lastSeen refreshed to the second. -/
theorem c7_insight_merge (t1 t2 : ℚ) (cfg : LearningConfig)
    (insights : List LearningInsight) (pt ot sm : Str) (conf : ℚ)
    (hnew : ∀ i ∈ insights,
      ¬ (i.patternType = pt ∧ i.originalTerm = ot ∧ i.suggestedMapping = sm))
    (hcap : insights.length < cfg.maxInsights) :
    addInsight t2 cfg (addInsight t1 cfg insights pt ot sm conf) pt ot sm conf
      = insights ++ [⟨pt, ot, sm, min 1 (conf + 1/10), 2, t1, t2, 0, 0⟩] ∧
    (addInsight t2 cfg (addInsight t1 cfg insights pt ot sm conf) pt ot sm conf).countP
      (fun i => decide (i.patternType = pt ∧ i.originalTerm = ot ∧
                        i.suggestedMapping = sm)) = 1 := by
  have hfirst : addInsight t1 cfg insights pt ot sm conf
      = insights ++ [⟨pt, ot, sm, conf, 1, t1, t1, 0, 0⟩] := by
    rw [addInsight, updateFirstInsight_none t1 pt ot sm insights hnew]
    simp only [List.length_append, List.length_cons, List.length_nil]
    rw [if_neg (by omega)]
  have hsecond : addInsight t2 cfg (insights ++ [⟨pt, ot, sm, conf, 1, t1, t1, 0, 0⟩])
      pt ot sm conf = insights ++ [⟨pt, ot, sm, min 1 (conf + 1/10), 2, t1, t2, 0, 0⟩] := by
    rw [addInsight, updateFirstInsight_append_last t2 pt ot sm insights
      ⟨pt, ot, sm, conf, 1, t1, t1, 0, 0⟩ hnew ⟨rfl, rfl, rfl⟩]
    simp only [List.length_append, List.length_cons, List.length_nil]
    rw [if_neg (by omega)]
  rw [hfirst, hsecond]
  refine ⟨rfl, ?_⟩
  rw [List.countP_append]
  have h0 : insights.countP
      (fun i => decide (i.patternType = pt ∧ i.originalTerm = ot ∧
                        i.suggestedMapping = sm)) = 0 := by
    rw [List.countP_eq_zero]
    intro i hi
    simp only [decide_eq_true_eq]
    exact hnew i hi
  rw [h0]
  simp

/-- Witness for C7 starting from an empty insight store. -/
theorem c7_insight_merge_witness :
    ((∀ i ∈ ([] : List LearningInsight),
        ¬ (i.patternType = "typo".toList ∧ i.originalTerm = "teh".toList ∧
           i.suggestedMapping = "the".toList)) ∧
      ([] : List LearningInsight).length < defaultConfig.maxInsights) ∧
    addInsight 6 defaultConfig (addInsight 5 defaultConfig [] "typo".toList "teh".toList
        "the".toList (1/2)) "typo".toList "teh".toList "the".toList (1/2)
      = [⟨"typo".toList, "teh".toList, "the".toList, min 1 (1/2 + 1/10), 2, 5, 6, 0, 0⟩] :=
  ⟨⟨fun i hi => absurd hi (List.not_mem_nil i), by decide⟩,
   (c7_insight_merge 5 6 defaultConfig [] "typo".toList "teh".toList "the".toList (1/2)
     (fun i hi => absurd hi (List.not_mem_nil i)) (by decide)).1⟩

/-- C7 counterexample: with maxInsights 1 and a store already holding one
high-confidence insight, recording a fresh low-confidence triple twice
leaves no stored insight for the triple at all (each recording is evicted by
the capacity sort), refuting the claim for this state. -/
theorem c7_insight_merge_counterexample :
    addInsight 201 tinyInsightConfig
        (addInsight 200 tinyInsightConfig [sampleHighInsight] "typo".toList "a".toList
          "b".toList (1/5)) "typo".toList "a".toList "b".toList (1/5)
      = [sampleHighInsight] ∧
    (addInsight 201 tinyInsightConfig
        (addInsight 200 tinyInsightConfig [sampleHighInsight] "typo".toList "a".toList
          "b".toList (1/5)) "typo".toList "a".toList "b".toList (1/5)).countP
      (fun i => decide (i.patternType = "typo".toList ∧ i.originalTerm = "a".toList ∧
                        i.suggestedMapping = "b".toList)) = 0 := by
  constructor
  · with_unfolding_all decide
  · with_unfolding_all decide

/-- Membership through the stable insertion. -/
theorem mem_insertS {le : α → α → Bool} {x a : α} :
    ∀ l : List α, a ∈ insertS le x l ↔ a = x ∨ a ∈ l := by
  intro l
  induction l with
  | nil => simp [insertS]
  | cons y ys ih =>
    rw [insertS]
    split
    · simp
    · simp only [List.mem_cons, ih]
      tauto

/-- Membership through the stable sort. -/
theorem mem_stableSort {le : α → α → Bool} {a : α} :
    ∀ l : List α, a ∈ stableSort le l ↔ a ∈ l := by
  intro l
  induction l with
  | nil => simp [stableSort]
  | cons x xs ih =>
    rw [stableSort, mem_insertS]
    simp [ih]

/-- Invariant preservation along a left fold, with membership of the
consumed element available. -/
theorem foldl_invariant_mem (f : β → α → β) (P : β → Prop) :
    ∀ (l : List α) (init : β), P init →
    (∀ b x, x ∈ l → P b → P (f b x)) → P (l.foldl f init) := by
  intro l
  induction l with
  | nil => intro init h0 _; exact h0
  | cons x xs ih =>
    intro init h0 hstep
    exact ih (f init x) (hstep init x (List.mem_cons_self _ _) h0)
      (fun b y hy => hstep b y (List.mem_cons_of_mem _ hy))

/-- A left fold whose step never changes the accumulator returns the
initial value. -/
theorem foldl_fixed (f : β → α → β) :
    ∀ (l : List α) (init : β), (∀ acc x, x ∈ l → f acc x = acc) → l.foldl f init = init := by
  intro l
  induction l with
  | nil => intro init _; rfl
  | cons x xs ih =>
    intro init h
    rw [List.foldl_cons, h init x (List.mem_cons_self _ _)]
    exact ih init (fun acc y hy => h acc y (List.mem_cons_of_mem _ hy))

/-- Evaluation of bucketPush at the key typo. -/
theorem bucketPush_typo (b : SuggestionBuckets) (s : Suggestion) :
    bucketPush b "typo".toList s = { b with typo := b.typo ++ [s] } := by
  rw [bucketPush, if_pos rfl]

/-- Evaluation of bucketPush at the key typos. -/
theorem bucketPush_typos (b : SuggestionBuckets) (s : Suggestion) :
    bucketPush b "typos".toList s = { b with typos := b.typos ++ [s] } := by
  rw [bucketPush, if_neg (by decide), if_pos rfl]

/-- Evaluation of bucketPush at the key synonym. -/
theorem bucketPush_synonym (b : SuggestionBuckets) (s : Suggestion) :
    bucketPush b "synonym".toList s = { b with synonym := b.synonym ++ [s] } := by
  rw [bucketPush, if_neg (by decide), if_neg (by decide), if_pos rfl]

/-- Evaluation of bucketPush at the key synonyms. -/
theorem bucketPush_synonyms (b : SuggestionBuckets) (s : Suggestion) :
    bucketPush b "synonyms".toList s = { b with synonyms := b.synonyms ++ [s] } := by
  rw [bucketPush, if_neg (by decide), if_neg (by decide), if_neg (by decide), if_pos rfl]

/-- Evaluation of bucketPush at the key intent. -/
theorem bucketPush_intent (b : SuggestionBuckets) (s : Suggestion) :
    bucketPush b "intent".toList s = { b with intent := b.intent ++ [s] } := by
  rw [bucketPush, if_neg (by decide), if_neg (by decide), if_neg (by decide),
    if_neg (by decide), if_pos rfl]

/-- Evaluation of bucketPush at the key intents. -/
theorem bucketPush_intents (b : SuggestionBuckets) (s : Suggestion) :
    bucketPush b "intents".toList s = { b with intents := b.intents ++ [s] } := by
  rw [bucketPush, if_neg (by decide), if_neg (by decide), if_neg (by decide),
    if_neg (by decide), if_neg (by decide), if_pos rfl]

/-- Evaluation of bucketPush at the key high_confidence. -/
theorem bucketPush_hc (b : SuggestionBuckets) (s : Suggestion) :
    bucketPush b "high_confidence".toList s
      = { b with highConfidence := b.highConfidence ++ [s] } := by
  rw [bucketPush, if_neg (by decide), if_neg (by decide), if_neg (by decide),
    if_neg (by decide), if_neg (by decide), if_neg (by decide), if_pos rfl]

/-- Evaluation of bucketPush at a name that is no dict key. -/
theorem bucketPush_other (b : SuggestionBuckets) (s : Suggestion) (name : Str)
    (h1 : name ≠ "typo".toList) (h2 : name ≠ "typos".toList)
    (h3 : name ≠ "synonym".toList) (h4 : name ≠ "synonyms".toList)
    (h5 : name ≠ "intent".toList) (h6 : name ≠ "intents".toList)
    (h7 : name ≠ "high_confidence".toList) :
    bucketPush b name s = b := by
  rw [bucketPush, if_neg h1, if_neg h2, if_neg h3, if_neg h4, if_neg h5, if_neg h6, if_neg h7]

/-- A list extended with a final letter s cannot equal a list whose last
letter is not s. -/
theorem append_s_ne (pt name : Str) (hlast : name.getLast? ≠ some 's') :
    pt ++ "s".toList ≠ name := by
  intro h
  apply hlast
  rw [← h, show ("s".toList : Str) = ['s'] from by decide, List.getLast?_concat]

/-- Processing one insight preserves the containment of each plural alias
bucket in its singular bucket, provided the insight's pattern type is none
of the three plural alias names. -/
theorem bucketAdd_preserves (cfg : LearningConfig) (b : SuggestionBuckets)
    (i : LearningInsight)
    (hpt : i.patternType ≠ "typos".toList ∧ i.patternType ≠ "synonyms".toList ∧
           i.patternType ≠ "intents".toList)
    (hP : (∀ s, s ∈ b.typos → s ∈ b.typo) ∧ (∀ s, s ∈ b.synonyms → s ∈ b.synonym) ∧
          (∀ s, s ∈ b.intents → s ∈ b.intent)) :
    (∀ s, s ∈ (bucketAdd cfg b i).typos → s ∈ (bucketAdd cfg b i).typo) ∧
    (∀ s, s ∈ (bucketAdd cfg b i).synonyms → s ∈ (bucketAdd cfg b i).synonym) ∧
    (∀ s, s ∈ (bucketAdd cfg b i).intents → s ∈ (bucketAdd cfg b i).intent) := by
  have key :
      (∀ s, s ∈ (bucketPush (bucketPush b i.patternType (mkSuggestion i))
          (i.patternType ++ "s".toList) (mkSuggestion i)).typos →
        s ∈ (bucketPush (bucketPush b i.patternType (mkSuggestion i))
          (i.patternType ++ "s".toList) (mkSuggestion i)).typo) ∧
      (∀ s, s ∈ (bucketPush (bucketPush b i.patternType (mkSuggestion i))
          (i.patternType ++ "s".toList) (mkSuggestion i)).synonyms →
        s ∈ (bucketPush (bucketPush b i.patternType (mkSuggestion i))
          (i.patternType ++ "s".toList) (mkSuggestion i)).synonym) ∧
      (∀ s, s ∈ (bucketPush (bucketPush b i.patternType (mkSuggestion i))
          (i.patternType ++ "s".toList) (mkSuggestion i)).intents →
        s ∈ (bucketPush (bucketPush b i.patternType (mkSuggestion i))
          (i.patternType ++ "s".toList) (mkSuggestion i)).intent) := by
    by_cases h1 : i.patternType = "typo".toList
    · rw [h1, bucketPush_typo, show ("typo".toList ++ "s".toList) = "typos".toList
        from by decide, bucketPush_typos]
      refine ⟨?_, ?_, ?_⟩
      · intro s hs
        rcases List.mem_append.mp hs with h | h
        · exact List.mem_append_left _ (hP.1 s h)
        · exact List.mem_append_right _ h
      · intro s hs
        exact hP.2.1 s hs
      · intro s hs
        exact hP.2.2 s hs
    · by_cases h2 : i.patternType = "synonym".toList
      · rw [h2, bucketPush_synonym, show ("synonym".toList ++ "s".toList) = "synonyms".toList
          from by decide, bucketPush_synonyms]
        refine ⟨fun s hs => hP.1 s hs, ?_, fun s hs => hP.2.2 s hs⟩
        intro s hs
        rcases List.mem_append.mp hs with h | h
        · exact List.mem_append_left _ (hP.2.1 s h)
        · exact List.mem_append_right _ h
      · by_cases h3 : i.patternType = "intent".toList
        · rw [h3, bucketPush_intent, show ("intent".toList ++ "s".toList) = "intents".toList
            from by decide, bucketPush_intents]
          refine ⟨fun s hs => hP.1 s hs, fun s hs => hP.2.1 s hs, ?_⟩
          intro s hs
          rcases List.mem_append.mp hs with h | h
          · exact List.mem_append_left _ (hP.2.2 s h)
          · exact List.mem_append_right _ h
        · by_cases h4 : i.patternType = "high_confidence".toList
          · rw [h4, bucketPush_hc, bucketPush_other _ _ _ (by decide) (by decide) (by decide)
              (by decide) (by decide) (by decide) (by decide)]
            exact ⟨fun s hs => hP.1 s hs, fun s hs => hP.2.1 s hs, fun s hs => hP.2.2 s hs⟩
          · rw [bucketPush_other _ _ _ h1 hpt.1 h2 hpt.2.1 h3 hpt.2.2 h4]
            rw [bucketPush_other _ _ _
              (append_s_ne _ _ (by decide))
              (fun h => h1 (List.append_cancel_right
                (h.trans (show ("typos".toList : Str) = "typo".toList ++ "s".toList
                  from by decide))))
              (append_s_ne _ _ (by decide))
              (fun h => h2 (List.append_cancel_right
                (h.trans (show ("synonyms".toList : Str) = "synonym".toList ++ "s".toList
                  from by decide))))
              (append_s_ne _ _ (by decide))
              (fun h => h3 (List.append_cancel_right
                (h.trans (show ("intents".toList : Str) = "intent".toList ++ "s".toList
                  from by decide))))
              (append_s_ne _ _ (by decide))]
            exact hP
  rw [bucketAdd]
  split
  · exact key
  · exact key

/-- In the buckets built by get_improvement_suggestions from insights whose
pattern types avoid the three plural alias names, every suggestion listed
under a plural alias bucket is also listed under its singular bucket. -/
theorem buildBuckets_plural_sub (cfg : LearningConfig) (insights : List LearningInsight)
    (hpat : ∀ i ∈ insights,
      i.patternType ≠ "typos".toList ∧ i.patternType ≠ "synonyms".toList ∧
      i.patternType ≠ "intents".toList) :
    (∀ s, s ∈ (buildBuckets cfg insights).typos → s ∈ (buildBuckets cfg insights).typo) ∧
    (∀ s, s ∈ (buildBuckets cfg insights).synonyms → s ∈ (buildBuckets cfg insights).synonym) ∧
    (∀ s, s ∈ (buildBuckets cfg insights).intents → s ∈ (buildBuckets cfg insights).intent) := by
  rw [buildBuckets]
  apply foldl_invariant_mem _
    (fun b : SuggestionBuckets =>
      (∀ s, s ∈ b.typos → s ∈ b.typo) ∧ (∀ s, s ∈ b.synonyms → s ∈ b.synonym) ∧
      (∀ s, s ∈ b.intents → s ∈ b.intent))
  · exact ⟨fun s hs => absurd hs (List.not_mem_nil s),
      fun s hs => absurd hs (List.not_mem_nil s),
      fun s hs => absurd hs (List.not_mem_nil s)⟩
  · intro b i hi hP
    split
    · exact bucketAdd_preserves cfg b i (hpat i hi) hP
    · exact hP

/-- The plural-in-singular containment survives the final per-bucket sort. -/
theorem sortBuckets_plural_sub (bb : SuggestionBuckets)
    (hP : (∀ s, s ∈ bb.typos → s ∈ bb.typo) ∧ (∀ s, s ∈ bb.synonyms → s ∈ bb.synonym) ∧
          (∀ s, s ∈ bb.intents → s ∈ bb.intent)) :
    (∀ s, s ∈ (sortBuckets bb).typos → s ∈ (sortBuckets bb).typo) ∧
    (∀ s, s ∈ (sortBuckets bb).synonyms → s ∈ (sortBuckets bb).synonym) ∧
    (∀ s, s ∈ (sortBuckets bb).intents → s ∈ (sortBuckets bb).intent) := by
  rw [sortBuckets]
  exact ⟨fun s hs => (mem_stableSort _).mpr (hP.1 s ((mem_stableSort _).mp hs)),
    fun s hs => (mem_stableSort _).mpr (hP.2.1 s ((mem_stableSort _).mp hs)),
    fun s hs => (mem_stableSort _).mpr (hP.2.2 s ((mem_stableSort _).mp hs))⟩

/-- With the plural buckets contained in the singular ones, the category
search of apply_high_confidence_suggestions never answers a plural
category, because the singular bucket is checked first. -/
theorem firstCategory_not_plural (b : SuggestionBuckets)
    (hP : (∀ s, s ∈ b.typos → s ∈ b.typo) ∧ (∀ s, s ∈ b.synonyms → s ∈ b.synonym) ∧
          (∀ s, s ∈ b.intents → s ∈ b.intent)) (s : Suggestion) :
    firstCategory b s ≠ some SuggCategory.typosCat ∧
    firstCategory b s ≠ some SuggCategory.synonymsCat ∧
    firstCategory b s ≠ some SuggCategory.intentsCat := by
  rw [firstCategory]
  by_cases h1 : s ∈ b.typo
  · rw [if_pos h1]
    exact ⟨by decide, by decide, by decide⟩
  · have h2 : s ∉ b.typos := fun hm => h1 (hP.1 s hm)
    rw [if_neg h1, if_neg h2]
    by_cases h3 : s ∈ b.synonym
    · rw [if_pos h3]
      exact ⟨by decide, by decide, by decide⟩
    · have h4 : s ∉ b.synonyms := fun hm => h3 (hP.2.1 s hm)
      rw [if_neg h3, if_neg h4]
      by_cases h5 : s ∈ b.intent
      · rw [if_pos h5]
        exact ⟨by decide, by decide, by decide⟩
      · have h6 : s ∉ b.intents := fun hm => h5 (hP.2.2 s hm)
        rw [if_neg h5, if_neg h6]
        exact ⟨by decide, by decide, by decide⟩

/-- One loop iteration of apply_high_confidence_suggestions changes nothing
when the category search cannot answer a plural name: the dictionary-writing
branches compare against the plural names only. -/
theorem applyOne_noop (b : SuggestionBuckets) (acc : Dictionaries × Nat) (s : Suggestion)
    (h : firstCategory b s ≠ some SuggCategory.typosCat ∧
         firstCategory b s ≠ some SuggCategory.synonymsCat ∧
         firstCategory b s ≠ some SuggCategory.intentsCat) :
    applyOne b acc s = acc := by
  rw [applyOne]
  cases hfc : firstCategory b s with
  | none => rfl
  | some c =>
    cases c with
    | typoCat => rfl
    | typosCat => exact absurd hfc h.1
    | synonymCat => rfl
    | synonymsCat => exact absurd hfc h.2.1
    | intentCat => rfl
    | intentsCat => exact absurd hfc h.2.2

/-- For every insight list whose pattern types avoid the three plural alias
names (the spec's pattern types are typo, synonym, intent and missing_term,
and _add_insight is only ever called with the first three),
apply_high_confidence_suggestions changes no dictionary, returns 0 and never
persists: the category search finds each high-confidence suggestion under
its singular name first, and no branch matches a singular name. -/
theorem applyHCS_noop (cfg : LearningConfig) (insights : List LearningInsight)
    (dicts : Dictionaries)
    (hpat : ∀ i ∈ insights,
      i.patternType ≠ "typos".toList ∧ i.patternType ≠ "synonyms".toList ∧
      i.patternType ≠ "intents".toList) :
    applyHighConfidenceSuggestions cfg insights dicts = (dicts, 0, false) := by
  have hPs := sortBuckets_plural_sub (buildBuckets cfg insights)
    (buildBuckets_plural_sub cfg insights hpat)
  have hfold : (getImprovementSuggestions cfg insights).highConfidence.foldl
      (applyOne (getImprovementSuggestions cfg insights)) (dicts, 0) = (dicts, 0) :=
    foldl_fixed _ _ _
      (fun acc s _ => applyOne_noop (getImprovementSuggestions cfg insights) acc s
        (firstCategory_not_plural _ hPs s))
  rw [applyHighConfidenceSuggestions, hfold]
  rfl

/-- C2: re-running apply_high_confidence_suggestions immediately after a
first run, with the insight list unchanged, applies zero changes to the
dictionaries and returns 0 (and persists nothing).  The hypothesis restricts
the stored pattern types to anything other than the three plural alias
bucket names; every pattern type the system records (typo, synonym, intent)
and the spec's pattern-type enumeration satisfy it. -/
theorem c2_apply_idempotent (cfg : LearningConfig) (insights : List LearningInsight)
    (dicts : Dictionaries)
    (hpat : ∀ i ∈ insights,
      i.patternType ≠ "typos".toList ∧ i.patternType ≠ "synonyms".toList ∧
      i.patternType ≠ "intents".toList) :
    applyHighConfidenceSuggestions cfg insights
        (applyHighConfidenceSuggestions cfg insights dicts).1
      = ((applyHighConfidenceSuggestions cfg insights dicts).1, 0, false) := by
  rw [applyHCS_noop cfg insights dicts hpat]
  exact applyHCS_noop cfg insights dicts hpat

/-- Witness for C2 on a store holding one qualifying typo insight. -/
theorem c2_apply_idempotent_witness :
    (∀ i ∈ [bugInsight],
      i.patternType ≠ "typos".toList ∧ i.patternType ≠ "synonyms".toList ∧
      i.patternType ≠ "intents".toList) ∧
    applyHighConfidenceSuggestions defaultConfig [bugInsight]
        (applyHighConfidenceSuggestions defaultConfig [bugInsight] emptyDicts).1
      = ((applyHighConfidenceSuggestions defaultConfig [bugInsight] emptyDicts).1, 0, false) :=
  ⟨by decide, c2_apply_idempotent defaultConfig [bugInsight] emptyDicts (by decide)⟩

/-- C1: evaluation at the failing input.  The insight (typo, teh, the) has
evidenceCount 2 at least the default minEvidenceCount 2 and confidenceScore
0.81 at least the default autoApplyThreshold 0.8, so the claim requires
apply_high_confidence_suggestions to insert typos[teh] = the and return 1;
the code applies nothing, returns 0, and leaves the typo dictionary without
the key. -/
theorem c1_apply_never_applies :
    (bugInsight.evidenceCount ≥ defaultConfig.minEvidenceCount ∧
     bugInsight.confidenceScore ≥ defaultConfig.autoApplyThreshold) ∧
    applyHighConfidenceSuggestions defaultConfig [bugInsight] emptyDicts
      = (emptyDicts, 0, false) ∧
    alookup "teh".toList
        (applyHighConfidenceSuggestions defaultConfig [bugInsight] emptyDicts).1.typos
      = none := by
  refine ⟨⟨by decide, by with_unfolding_all decide⟩, ?_, ?_⟩
  · with_unfolding_all decide
  · with_unfolding_all decide

/-- Unfolding of intercalate on two or more pieces. -/
theorem intercalate_cons_cons (sep a b : Str) (l : List Str) :
    List.intercalate sep (a :: b :: l) = a ++ sep ++ List.intercalate sep (b :: l) := by
  simp [List.intercalate, List.intersperse, List.append_assoc]

/-- Splitting a text around an inserted space splits the two sides
independently. -/
theorem splitWsGo_append_space (b : Str) :
    ∀ (a acc : Str), splitWsGo (a ++ ' ' :: b) acc = splitWsGo a acc ++ splitWs b := by
  intro a
  induction a with
  | nil =>
    intro acc
    by_cases hacc : acc = []
    · subst hacc
      rfl
    · have e1 : splitWsGo ([] ++ ' ' :: b) acc = acc.reverse :: splitWsGo b [] := by
        show (if isPyWs ' ' then
                (if acc = [] then splitWsGo b [] else acc.reverse :: splitWsGo b [])
              else splitWsGo b (' ' :: acc)) = acc.reverse :: splitWsGo b []
        rw [if_pos (show isPyWs ' ' = true from rfl), if_neg hacc]
      have e2 : splitWsGo [] acc = [acc.reverse] := by
        show (if acc = [] then [] else [acc.reverse]) = [acc.reverse]
        rw [if_neg hacc]
      rw [e1, e2]
      rfl
  | cons c a ih =>
    intro acc
    show (if isPyWs c then
            (if acc = [] then splitWsGo (a ++ ' ' :: b) []
             else acc.reverse :: splitWsGo (a ++ ' ' :: b) [])
          else splitWsGo (a ++ ' ' :: b) (c :: acc))
        = (if isPyWs c then
            (if acc = [] then splitWsGo a [] else acc.reverse :: splitWsGo a [])
           else splitWsGo a (c :: acc)) ++ splitWs b
    by_cases hc : isPyWs c
    · rw [if_pos hc, if_pos hc]
      by_cases hacc : acc = []
      · rw [if_pos hacc, if_pos hacc, ih]
      · rw [if_neg hacc, if_neg hacc, ih, List.cons_append]
    · rw [if_neg hc, if_neg hc, ih]

/-- Whitespace splitting of a single-space join is the concatenation of the
splits of the pieces: tokens never span a join boundary. -/
theorem splitWs_intercalate : ∀ l : List Str,
    splitWs (List.intercalate [' '] l) = l.flatMap splitWs := by
  intro l
  induction l with
  | nil => rfl
  | cons x rest ih =>
    cases rest with
    | nil => simp [List.intercalate, List.intersperse]
    | cons y rest2 =>
      rw [intercalate_cons_cons, List.append_assoc, List.singleton_append, List.flatMap_cons,
        ← ih, splitWs, splitWsGo_append_space]
      rfl

/-- C5 (amended): correct_typos replaces each whitespace token whose
lower-cased form is a key of the typo map by its correction and drops the
misspelled original; tokenizing the output gives exactly the per-token
replacements, in order. -/
theorem c5_typo_replacement (typos : List (Str × Str)) (text : Str) :
    splitWs (correctTypos typos text)
      = (splitWs text).flatMap (fun w => splitWs (fixWord typos w)) := by
  rw [correctTypos, splitWs_intercalate]
  simp [List.flatMap_map]

/-- C5 counterexample: with the typo map sending teh to the, the input
token teh (an exact key) does not appear in the output at all, neither as a
token nor as a substring, refuting the claim that the original is left in
place alongside the correction. -/
theorem c5_typo_counterexample :
    correctTypos typoDict "teh".toList = "the".toList ∧
    splitWs (correctTypos typoDict "teh".toList) = ["the".toList] ∧
    "teh".toList ∉ splitWs (correctTypos typoDict "teh".toList) ∧
    ¬ "teh".toList <:+: correctTypos typoDict "teh".toList := by
  refine ⟨by decide, by decide, by decide, by decide⟩

/-- A successful association lookup comes from a stored entry. -/
theorem alookup_mem {β : Type} {k : Str} {v : β} :
    ∀ l : List (Str × β), alookup k l = some v → (k, v) ∈ l := by
  intro l
  induction l with
  | nil => intro h; cases h
  | cons p rest ih =>
    intro h
    rw [alookup] at h
    by_cases hk : p.1 = k
    · rw [if_pos hk] at h
      have hv : p.2 = v := Option.some.inj h
      have hpe : p = (k, v) := Prod.ext hk hv
      rw [← hpe]
      exact List.mem_cons_self _ _
    · rw [if_neg hk] at h
      exact List.mem_cons_of_mem _ (ih h)

/-- With unique keys, every stored entry is found by the lookup. -/
theorem alookup_of_mem_nodup {β : Type} {k : Str} {v : β} :
    ∀ l : List (Str × β), (l.map Prod.fst).Nodup → (k, v) ∈ l → alookup k l = some v := by
  intro l
  induction l with
  | nil => intro _ h; cases h
  | cons p rest ih =>
    intro hnd hm
    rw [List.map_cons, List.nodup_cons] at hnd
    rcases List.mem_cons.mp hm with h | h
    · rw [alookup, if_pos (by rw [← h])]
      rw [← h]
    · have hk : p.1 ≠ k := by
        intro he
        exact hnd.1 (he ▸ List.mem_map_of_mem Prod.fst h)
      rw [alookup, if_neg hk]
      exact ih hnd.2 h

/-- With unique keys, two stored entries sharing a key are equal. -/
theorem entry_eq_of_nodup {β : Type} {l : List (Str × β)}
    (hnd : (l.map Prod.fst).Nodup) {p q : Str × β}
    (hp : p ∈ l) (hq : q ∈ l) (hkey : p.1 = q.1) : p = q := by
  have h1 : alookup p.1 l = some p.2 := alookup_of_mem_nodup l hnd hp
  have h2 : alookup q.1 l = some q.2 := alookup_of_mem_nodup l hnd hq
  rw [hkey] at h1
  rw [h1] at h2
  exact Prod.ext hkey (Option.some.inj h2)

/-- Membership in the reverse-lookup accumulation. -/
theorem mem_reverseGroups {w x : Str} :
    ∀ {l : List (Str × List Str)},
    (x ∈ l.foldr (fun p acc => if w ∈ p.2 then groupTerms p ∪ acc else acc) ∅
      ↔ ∃ p ∈ l, w ∈ p.2 ∧ x ∈ groupTerms p) := by
  intro l
  induction l with
  | nil => simp
  | cons p rest ih =>
    rw [List.foldr_cons]
    by_cases hw : w ∈ p.2
    · rw [if_pos hw]
      simp only [Finset.mem_union, ih, List.mem_cons]
      constructor
      · rintro (h | ⟨q, hq, hwq, hxq⟩)
        · exact ⟨p, Or.inl rfl, hw, h⟩
        · exact ⟨q, Or.inr hq, hwq, hxq⟩
      · rintro ⟨q, hq, hwq, hxq⟩
        rcases hq with hq1 | hq1
        · left; rw [hq1] at hxq; exact hxq
        · right; exact ⟨q, hq1, hwq, hxq⟩
    · rw [if_neg hw]
      rw [ih]
      constructor
      · rintro ⟨q, hq, hwq, hxq⟩
        exact ⟨q, List.mem_cons_of_mem _ hq, hwq, hxq⟩
      · rintro ⟨q, hq, hwq, hxq⟩
        rcases List.mem_cons.mp hq with hq1 | hq1
        · rw [hq1] at hwq; exact absurd hwq hw
        · exact ⟨q, hq1, hwq, hxq⟩

/-- Membership in the lookup part of one word's expansion. -/
theorem mem_lookupPart {syns : List (Str × List Str)} {w x : Str} :
    x ∈ ((alookup w syns).getD []).toFinset
      ↔ ∃ L, alookup w syns = some L ∧ x ∈ L := by
  cases h : alookup w syns with
  | none => simp [h]
  | some L => simp [h]

/-- Membership in the expansion of one word. -/
theorem mem_expandOne {syns : List (Str × List Str)} {w x : Str} :
    x ∈ expandOne syns w
      ↔ x = w ∨ (∃ L, alookup w syns = some L ∧ x ∈ L) ∨
        ∃ p ∈ syns, w ∈ p.2 ∧ x ∈ groupTerms p := by
  rw [expandOne, Finset.mem_insert, Finset.mem_union, mem_lookupPart]
  rw [reverseGroups, mem_reverseGroups]

/-- The word itself belongs to its expansion. -/
theorem self_mem_expandOne {syns : List (Str × List Str)} {w : Str} :
    w ∈ expandOne syns w :=
  mem_expandOne.mpr (Or.inl rfl)

/-- Membership in the expansion of a word set. -/
theorem mem_expandSynonymsF {syns : List (Str × List Str)} {s : Finset Str} {x : Str} :
    x ∈ expandSynonymsF syns s ↔ ∃ w ∈ s, x ∈ expandOne syns w := by
  rw [expandSynonymsF, Finset.mem_union, Finset.mem_biUnion]
  constructor
  · rintro (h | h)
    · exact ⟨x, h, self_mem_expandOne⟩
    · exact h
  · exact Or.inr

/-- Key containment lemma for idempotence: under the non-chaining
constraints (unique keys, pairwise-disjoint value lists, no key inside
another entry's value list), the expansion of any member of one word's
expansion stays inside that expansion. -/
theorem expandOne_closed (syns : List (Str × List Str))
    (hnd : (syns.map Prod.fst).Nodup)
    (h2 : ∀ p ∈ syns, ∀ q ∈ syns, ∀ t, t ∈ p.2 → t ∈ q.2 → p.1 = q.1)
    (h3 : ∀ p ∈ syns, ∀ q ∈ syns, p.1 ∈ q.2 → p.1 = q.1)
    (w v : Str) (hv : v ∈ expandOne syns w) :
    expandOne syns v ⊆ expandOne syns w := by
  intro x hx
  rcases mem_expandOne.mp hv with hvw | ⟨L, hlkw, hvL⟩ | ⟨p, hp, hwp, hvp⟩
  · rw [hvw] at hx
    exact hx
  · -- v comes from the direct lookup of w: (w, L) is an entry and v is in L
    have hwL : (w, L) ∈ syns := alookup_mem syns hlkw
    rcases mem_expandOne.mp hx with hxv | ⟨L', hlkv, hxL'⟩ | ⟨q, hq, hvq, hxq⟩
    · rw [hxv]
      exact mem_expandOne.mpr (Or.inr (Or.inl ⟨L, hlkw, hvL⟩))
    · have hvL' : (v, L') ∈ syns := alookup_mem syns hlkv
      have hvw2 : v = w := h3 (v, L') hvL' (w, L) hwL hvL
      rw [hvw2, hlkw] at hlkv
      have hLL : L' = L := Option.some.inj hlkv.symm
      rw [hLL] at hxL'
      exact mem_expandOne.mpr (Or.inr (Or.inl ⟨L, hlkw, hxL'⟩))
    · have hqw : q.1 = w := h2 q hq (w, L) hwL v hvq hvL
      have hqe : q = (w, L) := entry_eq_of_nodup hnd hq hwL hqw
      rw [hqe] at hxq
      rcases Finset.mem_insert.mp hxq with hxw | hxL
      · rw [hxw]
        exact self_mem_expandOne
      · exact mem_expandOne.mpr (Or.inr (Or.inl ⟨L, hlkw, List.mem_toFinset.mp hxL⟩))
  · -- v comes from the reverse lookup: w is in the value list of entry p
    have hsub : ∀ y, y ∈ groupTerms p → y ∈ expandOne syns w := by
      intro y hy
      exact mem_expandOne.mpr (Or.inr (Or.inr ⟨p, hp, hwp, hy⟩))
    rcases Finset.mem_insert.mp hvp with hvk | hvval
    · -- v is the key of the entry p
      rcases mem_expandOne.mp hx with hxv | ⟨L', hlkv, hxL'⟩ | ⟨q, hq, hvq, hxq⟩
      · rw [hxv, hvk]
        exact hsub p.1 (Finset.mem_insert_self _ _)
      · have hlkp : alookup v syns = some p.2 := by
          rw [hvk]
          have hpp : (p.1, p.2) ∈ syns := by rw [Prod.mk.eta]; exact hp
          exact alookup_of_mem_nodup syns hnd hpp
        rw [hlkv] at hlkp
        have hL' : L' = p.2 := Option.some.inj hlkp
        rw [hL'] at hxL'
        exact hsub x (Finset.mem_insert_of_mem (List.mem_toFinset.mpr hxL'))
      · have hpq : p.1 ∈ q.2 := hvk ▸ hvq
        have hkey : p.1 = q.1 := h3 p hp q hq hpq
        have hqe : q = p := entry_eq_of_nodup hnd hq hp hkey.symm
        rw [hqe] at hxq
        exact hsub x hxq
    · -- v is one of the values of the entry p
      have hvval2 : v ∈ p.2 := List.mem_toFinset.mp hvval
      rcases mem_expandOne.mp hx with hxv | ⟨L', hlkv, hxL'⟩ | ⟨q, hq, hvq, hxq⟩
      · rw [hxv]
        exact hsub v (Finset.mem_insert_of_mem hvval)
      · have hvL' : (v, L') ∈ syns := alookup_mem syns hlkv
        have hkey : v = p.1 := h3 (v, L') hvL' p hp hvval2
        have hqe : (v, L') = p := entry_eq_of_nodup hnd hvL' hp hkey
        have hL' : L' = p.2 := by rw [← hqe]
        rw [hL'] at hxL'
        exact hsub x (Finset.mem_insert_of_mem (List.mem_toFinset.mpr hxL'))
      · have hkey : q.1 = p.1 := h2 q hq p hp v hvq hvval2
        have hqe : q = p := entry_eq_of_nodup hnd hq hp hkey
        rw [hqe] at hxq
        exact hsub x hxq

/-- C6 (amended): synonym expansion is idempotent for every dictionary
satisfying the stated non-chaining design constraints: keys are unique,
value lists of distinct entries are disjoint, and no key occurs in another
entry's value list.  Expanding the already-expanded set adds nothing. -/
theorem c6_expand_idempotent (syns : List (Str × List Str)) (T : List Str)
    (hnd : (syns.map Prod.fst).Nodup)
    (h2 : ∀ p ∈ syns, ∀ q ∈ syns, ∀ t, t ∈ p.2 → t ∈ q.2 → p.1 = q.1)
    (h3 : ∀ p ∈ syns, ∀ q ∈ syns, p.1 ∈ q.2 → p.1 = q.1) :
    expandSynonymsF syns (expandSynonyms syns T) = expandSynonyms syns T := by
  apply Finset.Subset.antisymm
  · intro x hx
    rcases mem_expandSynonymsF.mp hx with ⟨v, hvE, hxv⟩
    rcases mem_expandSynonymsF.mp hvE with ⟨u, huT, hvu⟩
    have hxu : x ∈ expandOne syns u :=
      expandOne_closed syns hnd h2 h3 u v hvu hxv
    exact mem_expandSynonymsF.mpr ⟨u, huT, hxu⟩
  · intro x hx
    exact mem_expandSynonymsF.mpr ⟨x, hx, self_mem_expandOne⟩

/-- Witness for C6 on a one-entry dictionary. -/
theorem c6_expand_idempotent_witness :
    expandSynonymsF [("big".toList, ["large".toList, "huge".toList])]
        (expandSynonyms [("big".toList, ["large".toList, "huge".toList])] ["big".toList])
      = expandSynonyms [("big".toList, ["large".toList, "huge".toList])] ["big".toList] :=
  c6_expand_idempotent [("big".toList, ["large".toList, "huge".toList])] ["big".toList]
    (by decide) (by decide) (by decide)

/-- C6 counterexample: with the chaining dictionary a maps to b, b maps to
c, a second expansion pass adds the term c that the first pass does not
produce, so expansion is not idempotent for every dictionary. -/
theorem c6_expand_counterexample :
    "c".toList ∉ expandSynonyms chainSyns ["a".toList] ∧
    "c".toList ∈ expandSynonymsF chainSyns (expandSynonyms chainSyns ["a".toList]) ∧
    expandSynonymsF chainSyns (expandSynonyms chainSyns ["a".toList])
      ≠ expandSynonyms chainSyns ["a".toList] := by
  refine ⟨by decide, by decide, ?_⟩
  intro h
  have h1 : "c".toList ∈ expandSynonymsF chainSyns (expandSynonyms chainSyns ["a".toList]) :=
    by decide
  rw [h] at h1
  exact absurd h1 (by decide)

/-- A fold accumulating one summand per element is the sum of a map. -/
theorem foldl_add_map {α : Type} (f : α → ℚ) :
    ∀ (l : List α) (init : ℚ), l.foldl (fun acc x => acc + f x) init = init + (l.map f).sum := by
  intro l
  induction l with
  | nil => intro init; simp
  | cons x xs ih =>
    intro init
    rw [List.foldl_cons, ih, List.map_cons, List.sum_cons]
    ring

/-- A fold accumulating two summands per element is the sum of a map. -/
theorem foldl_add2_map {α : Type} (e w : α → ℚ) :
    ∀ (l : List α) (init : ℚ),
    l.foldl (fun acc x => acc + e x + w x) init = init + (l.map (fun x => e x + w x)).sum := by
  intro l
  induction l with
  | nil => intro init; simp
  | cons x xs ih =>
    intro init
    rw [List.foldl_cons, ih, List.map_cons, List.sum_cons]
    ring

/-- C4 (amended): the scorer is additive over terms, but the two exact
tiers are mutually exclusive per term because of the elif: a term contained
in the binding's full text contributes exactly 10 to its exact tier whether
or not it is also in the search text, and the 8 is earned only by a term
absent from the full text and present in the search text; the word-level
and fuzzy components add independently. -/
theorem c4_scoring_tiers (b : Binding) (kws : List Str) :
    scoreBinding b kws
      = (kws.map (fun kw => exactTierContrib (bindingFullText b) (bindingSearchText b) kw
            + wordTierContrib (bindingFullText b) (bindingSearchText b) kw)).sum
        + (kws.map (fun kw => fuzzyContrib (bindingFullText b) kw)).sum ∧
    (∀ kw, kw <:+: bindingFullText b →
      exactTierContrib (bindingFullText b) (bindingSearchText b) kw = 10) ∧
    (∀ kw, ¬ kw <:+: bindingFullText b → kw <:+: bindingSearchText b →
      exactTierContrib (bindingFullText b) (bindingSearchText b) kw = 8) := by
  refine ⟨?_, ?_, ?_⟩
  · rw [scoreBinding]
    rw [foldl_add2_map, foldl_add_map]
    ring
  · intro kw h
    rw [exactTierContrib, if_pos h]
  · intro kw h1 h2
    rw [exactTierContrib, if_neg h1, if_pos h2]

/-- Witness for C4: a term of the binding's full text earns exactly 10 in
the exact tier. -/
theorem c4_scoring_tiers_witness :
    ("xy".toList <:+: bindingFullText sampleBinding) ∧
    exactTierContrib (bindingFullText sampleBinding) (bindingSearchText sampleBinding)
      "xy".toList = 10 :=
  ⟨by decide, (c4_scoring_tiers sampleBinding ["xy".toList]).2.1 "xy".toList (by decide)⟩

/-- C4 counterexample: the keyword xy is contained both in the binding's
full text and in its search text, yet the total score of the one-keyword
query is 10, not the 18 the claim requires (the word tier is skipped for a
two-letter word and no fuzzy close match exists). -/
theorem c4_scoring_counterexample :
    ("xy".toList <:+: bindingFullText sampleBinding) ∧
    ("xy".toList <:+: bindingSearchText sampleBinding) ∧
    scoreBinding sampleBinding ["xy".toList] = 10 ∧
    scoreBinding sampleBinding ["xy".toList] ≠ 18 := by
  refine ⟨by decide, by decide, ?_, ?_⟩
  · with_unfolding_all decide
  · with_unfolding_all decide
